import Mathlib

/-!
Verification of the `csv2bib` converter.

Shallow embedding of `src/csv2bib.py`, a CSV → BibTeX converter, together
with proofs settling the specification claims about it.

Modelling conventions:
* Python strings are Lean `String`s (lists of `Char`); the handful of
  Unicode-sensitive predicates (`str.isupper`, `str.lower`, `str.strip`,
  whitespace splitting) are modelled by the corresponding Lean `Char`
  primitives, which agree on the ASCII range exercised by the program.
* The file system and the interactive prompt are external collaborators:
  file contents and user answers are passed in as explicit values, and a
  Python exception that escapes a function is an `Except.error`.
* CSV text is modelled at the parsed level (a list of rows, each a list of
  cell strings), which is the level at which every claim is stated.
-/

/-- The `VALID_BIBTEX_FIELDS` dictionary (source lines 30–45):
field name → requirement class, in source order. -/
def VALID_BIBTEX_FIELDS : List (String × String) :=
  [("author", "Required"), ("title", "Required"), ("journal", "Required"),
   ("year", "Required"), ("volume", "Optional"), ("number", "Optional"),
   ("pages", "Optional"), ("month", "Optional"), ("note", "Optional"),
   ("doi", "Non-standard"), ("issn", "Non-standard"), ("zblnumber", "Non-standard"),
   ("eprint", "Non-standard"), ("url", "Non-standard")]

/-- Python `bib_field in VALID_BIBTEX_FIELDS`: membership in the key set. -/
def isVocabField (f : String) : Bool :=
  (VALID_BIBTEX_FIELDS.map Prod.fst).contains f

/-- Source `mask_capitals` (lines 74–84):
`''.join(f"{{{char}}}" if char.isupper() else char for char in value)` —
each upper-case character is wrapped in its own brace group. -/
def mask_capitals (value : String) : String :=
  ⟨(value.data.map (fun c => if c.isUpper then ['\x7b', c, '\x7d'] else [c])).flatten⟩

/-- Python `str.split(sep)` for a one-character separator: splits at every
occurrence, keeping empty segments; `"".split(sep) = [""]`. -/
def pySplitChar (sep : Char) : List Char → List (List Char)
  | [] => [[]]
  | c :: cs =>
    if c = sep then [] :: pySplitChar sep cs
    else (c :: (pySplitChar sep cs).headD []) :: (pySplitChar sep cs).tail

/-- Python `str.lower()`, character by character (ASCII range). -/
def pyLower (s : String) : String := ⟨s.data.map Char.toLower⟩

/-- Python `str.strip()`: remove leading and trailing whitespace. -/
def pyStrip (s : String) : String :=
  ⟨(((s.data.dropWhile Char.isWhitespace).reverse).dropWhile Char.isWhitespace).reverse⟩

/-- Python argument-less `str.split()`: split on runs of whitespace,
producing no empty tokens.  The second argument accumulates the current
token in reverse. -/
def pySplitWhite : List Char → List Char → List (List Char)
  | [], acc => if acc.isEmpty then [] else [acc.reverse]
  | c :: cs, acc =>
    if c.isWhitespace then
      if acc.isEmpty then pySplitWhite cs [] else acc.reverse :: pySplitWhite cs []
    else pySplitWhite cs (c :: acc)

/-- Source `generate_bibtex_key` (lines 87–93):
`last_names = authors.split(",")[0].split()`;
`last_name = last_names[-1] if last_names else "unknown"`;
`return f"{last_name.lower()}{year}"`. -/
def generate_bibtex_key (authors year : String) : String :=
  let last_names := pySplitWhite ((pySplitChar ',' authors.data).headD []) []
  let last_name : List Char := last_names.getLast?.getD ['u', 'n', 'k', 'n', 'o', 'w', 'n']
  pyLower (String.mk last_name) ++ year

/-- The characters of a string before its first occurrence of `sep`
(the whole string if `sep` does not occur). -/
def beforeFirst (sep : Char) : List Char → List Char
  | [] => []
  | c :: cs => if c = sep then [] else c :: beforeFirst sep cs

/-- The key-generation formula exactly as the specification words it:
lower-case the last whitespace-separated token of the substring of the
author field before its first comma (`"unknown"` when there is no token),
then append the year field verbatim. -/
def spec_citation_key (authors year : String) : String :=
  let tokens := pySplitWhite (beforeFirst ',' authors.data) []
  pyLower (String.mk (tokens.getLast?.getD ['u', 'n', 'k', 'n', 'o', 'w', 'n'])) ++ year

/-- Insertion into a Python dict modelled as an insertion-ordered
association list: an existing key keeps its position and receives the new
value; a new key is appended at the end. -/
def dictInsert {α : Type} (m : List (String × α)) (k : String) (v : α) :
    List (String × α) :=
  if k ∈ m.map Prod.fst then m.map (fun kv => if kv.1 = k then (k, v) else kv)
  else m ++ [(k, v)]

/-- Build a Python dict from a pair list, inserting left to right. -/
def dictFromList {α : Type} (l : List (String × α)) : List (String × α) :=
  l.foldl (fun m kv => dictInsert m kv.1 kv.2) []

/-- First value stored under a key in an association list. -/
def assocLookup {α : Type} (m : List (String × α)) (k : String) : Option α :=
  match m with
  | [] => none
  | kv :: rest => if kv.1 = k then some kv.2 else assocLookup rest k

/-- A row as produced by `csv.DictReader`: an insertion-ordered dict from
field name to cell value, where a value `none` is the `restval` padding
`None` used when the raw row is shorter than the header, plus a flag
recording whether the `restkey` entry (dict key `None`) is present
because the raw row was longer than the header. -/
structure PyRow where
  pairs : List (String × Option String)
  hasRestKey : Bool
  deriving DecidableEq, Repr

/-- Row construction performed by `csv.DictReader.__next__`:
`dict(zip(fieldnames, row))`, then fieldnames beyond the raw row's length
are padded with `None`, and extra cells are collected under the `None`
restkey. -/
def mkPyRow (fieldnames cells : List String) : PyRow :=
  { pairs := dictFromList (fieldnames.zip
      (cells.map some ++ List.replicate (fieldnames.length - cells.length) none))
    hasRestKey := decide (fieldnames.length < cells.length) }

/-- Python `len(row)` for a `DictReader` row: number of dict keys. -/
def pyRowLen (r : PyRow) : Nat :=
  r.pairs.length + (if r.hasRestKey then 1 else 0)

/-- The malformed-row test of source line 175:
`len(row) != header_length or None in row or any(k is None for k in row.keys())`
(the last two disjuncts both detect the `None` restkey). -/
def rowMalformed (header_length : Nat) (r : PyRow) : Bool :=
  decide (pyRowLen r ≠ header_length) || r.hasRestKey

/-- Python `row.get(csv_field, "")`: the stored value when the key is
present (possibly the `None` padding), the default `""` otherwise. -/
def rowGetD (r : PyRow) (k : String) : Option String :=
  match assocLookup r.pairs k with
  | some v => v
  | none => some ""

/-- The capital-masking guard of source lines 186–187:
`if bib_field in ["title", "booktitle", "journal"]: value = mask_capitals(value)`. -/
def maskIf (bib_field value : String) : String :=
  if bib_field = "title" ∨ bib_field = "booktitle" ∨ bib_field = "journal" then
    mask_capitals value
  else value

/-- One iteration of the field loop (source lines 181–188) for one mapping
entry `(csv_field, bib_field)`: look the column up with default `""`,
strip it (`.strip()` on the `None` padding raises, modelled as
`Except.error`), emit no line when the stripped value is empty, otherwise
emit `  bib_field = \x7bvalue\x7d,` with capitals masked for title-like
fields. -/
def entryLine (r : PyRow) (cf : String × String) : Except Unit (Option String) :=
  match rowGetD r cf.1 with
  | none => .error ()
  | some raw =>
    let value := pyStrip raw
    if value = "" then .ok none
    else .ok (some ("  " ++ cf.2 ++ " = \x7b" ++ maskIf cf.2 value ++ "\x7d,"))

/-- The whole field loop over the mapping's entries in order; a raised
exception aborts the remaining entries. -/
def entryLines (r : PyRow) : List (String × String) → Except Unit (List String)
  | [] => .ok []
  | cf :: rest =>
    match entryLine r cf with
    | .error e => .error e
    | .ok none => entryLines r rest
    | .ok (some l) =>
      match entryLines r rest with
      | .error e => .error e
      | .ok ls => .ok (l :: ls)

/-- Per-row body of `convert_csv_to_bibtex_with_mapping` (source lines
172–192): skip the row when the malformed-row test fires; otherwise build
`"@article\x7b\n"`, the field lines, and `"\x7d\n\n"`; an exception inside
the `try` is caught and the row's block is omitted. -/
def renderRow (header_length : Nat) (r : PyRow)
    (field_mapping : List (String × String)) : Option String :=
  if rowMalformed header_length r then none
  else
    match entryLines r field_mapping with
    | .error _ => none
    | .ok ls =>
      some ("@article\x7b\n" ++ String.join (ls.map (· ++ "\n")) ++ "\x7d\n\n")

/-- Source `convert_csv_to_bibtex_with_mapping` (lines 158–192), at the
parsed-CSV level: the list of blocks written to the output file, one per
surviving input row, in input order. -/
def convert_csv_to_bibtex_with_mapping (fieldnames : List String)
    (rows : List (List String)) (field_mapping : List (String × String)) :
    List String :=
  rows.filterMap fun cells =>
    renderRow fieldnames.length (mkPyRow fieldnames cells) field_mapping

/-- Rendering of a structurally well-formed row (as many cells as the
header): the same field loop, with the row as the plain association list
`fieldnames.zip cells`. -/
def wfEntryLine (row : List (String × String)) (cf : String × String) :
    Option String :=
  let value := pyStrip ((assocLookup row cf.1).getD "")
  if value = "" then none
  else some ("  " ++ cf.2 ++ " = \x7b" ++ maskIf cf.2 value ++ "\x7d,")

/-- The full block a well-formed row renders to. -/
def renderBlockWF (fieldnames cells : List String)
    (field_mapping : List (String × String)) : String :=
  "@article\x7b\n"
    ++ String.join ((field_mapping.filterMap
          (wfEntryLine (fieldnames.zip cells))).map (· ++ "\n"))
    ++ "\x7d\n\n"

/-- First line of a rendered block (characters before the first newline). -/
def firstLineOf (s : String) : String := ⟨beforeFirst '\n' s.data⟩

/-- Outcome of `validate_csv` (source lines 47–72), carrying the
diagnostic the function prints before returning `False`; the boolean the
source returns is `outcome = .ok`. -/
inductive ValidationOutcome where
  | ok : ValidationOutcome
  | emptyHeader : ValidationOutcome
  | rowMismatch (row_number : Nat) (row : List String) : ValidationOutcome
  | ioError (msg : String) : ValidationOutcome
  deriving DecidableEq, Repr

/-- The row loop of `validate_csv` (source lines 65–68): report the first
data row whose cell count differs from the header's; `enumerate(reader,
start=2)` numbers the rows from 2. -/
def scanRows (header_length : Nat) : List (List String) → Nat → ValidationOutcome
  | [], _ => .ok
  | row :: rest, n =>
    if row.length ≠ header_length then .rowMismatch n row
    else scanRows header_length rest (n + 1)

/-- Source `validate_csv` (lines 47–72) over the parsed file: a failure to
open or read the input is caught by the `except Exception` clause and
reported; a file with no rows, or whose header row is the empty row,
fails the `if not headers` test; otherwise every data row is checked
against the header length. -/
def validate_csv (file : Except String (List (List String))) : ValidationOutcome :=
  match file with
  | .error e => .ioError e
  | .ok [] => .emptyHeader
  | .ok (headers :: rows) =>
    if headers.isEmpty then .emptyHeader
    else scanRows headers.length rows 2

/-- Hex digits `0123456789abcdef` as used by Python's `\uXXXX` escapes. -/
def hexDigitChar (n : Nat) : Char :=
  if n < 10 then Char.ofNat (48 + n) else Char.ofNat (87 + n)

/-- Escaping of one character by `json.dump` with `ensure_ascii=False`:
backslash, double quote and the five named control characters get
two-character escapes, the remaining control characters a `\u00XX`
escape, and every other character stands for itself. -/
def escChar (c : Char) : List Char :=
  if c = '\\' then ['\\', '\\']
  else if c = '"' then ['\\', '"']
  else if c = '\x08' then ['\\', 'b']
  else if c = '\x0c' then ['\\', 'f']
  else if c = '\n' then ['\\', 'n']
  else if c = '\r' then ['\\', 'r']
  else if c = '\t' then ['\\', 't']
  else if c.toNat < 32 then
    ['\\', 'u', '0', '0', hexDigitChar (c.toNat / 16), hexDigitChar (c.toNat % 16)]
  else [c]

/-- A JSON string literal for `s`. -/
def encodeJsonString (s : String) : List Char :=
  '"' :: (s.data.flatMap escChar ++ ['"'])

/-- One `"key": "value"` member as `json.dump` lays it out under
`indent=4`. -/
def encodeMember (kv : String × String) : List Char :=
  [' ', ' ', ' ', ' '] ++ encodeJsonString kv.1 ++ [':', ' '] ++ encodeJsonString kv.2

/-- Member texts joined with the item separator `",\n"`. -/
def joinMembers : List (List Char) → List Char
  | [] => []
  | [x] => x
  | x :: y :: rest => x ++ ',' :: '\n' :: joinMembers (y :: rest)

/-- Source lines 152–153, `json.dump(mapping, file, ensure_ascii=False,
indent=4)`: the exact text written to `field_mapping.json`. -/
def json_dump_mapping (m : List (String × String)) : String :=
  match m with
  | [] => "\x7b\x7d"
  | _ => ⟨['\x7b', '\n'] ++ joinMembers (m.map encodeMember) ++ ['\n', '\x7d']⟩

/-- JSON whitespace accepted between tokens. -/
def isJsonWS (c : Char) : Bool :=
  c = ' ' || c = '\t' || c = '\n' || c = '\r'

/-- Drop leading JSON whitespace. -/
def skipWS : List Char → List Char
  | [] => []
  | c :: cs => if isJsonWS c then skipWS cs else c :: cs

/-- Numeric value of one hex digit. -/
def hexVal (c : Char) : Option Nat :=
  if 48 ≤ c.toNat ∧ c.toNat ≤ 57 then some (c.toNat - 48)
  else if 97 ≤ c.toNat ∧ c.toNat ≤ 102 then some (c.toNat - 87)
  else if 65 ≤ c.toNat ∧ c.toNat ≤ 70 then some (c.toNat - 55)
  else none

/-- The two-character JSON string escapes. -/
def unescapeShort (c : Char) : Option Char :=
  if c = '"' then some '"'
  else if c = '\\' then some '\\'
  else if c = '/' then some '/'
  else if c = 'b' then some '\x08'
  else if c = 'f' then some '\x0c'
  else if c = 'n' then some '\n'
  else if c = 'r' then some '\r'
  else if c = 't' then some '\t'
  else none

/-- Body of a JSON string literal after its opening quote: the decoded
characters, and the input remaining after the closing quote.
(Surrogate-pair recombination is not modelled; the dumper only emits
`\u00XX`.) -/
def parseJsonStringAux : List Char → Option (List Char × List Char)
  | [] => none
  | c :: cs =>
    if c = '"' then some ([], cs)
    else if c = '\\' then
      match cs with
      | [] => none
      | e :: cs2 =>
        if e = 'u' then
          match cs2 with
          | a :: b :: c2 :: d :: cs3 =>
            match hexVal a, hexVal b, hexVal c2, hexVal d with
            | some va, some vb, some vc, some vd =>
              match parseJsonStringAux cs3 with
              | some (s, r) =>
                some (Char.ofNat (va * 4096 + vb * 256 + vc * 16 + vd) :: s, r)
              | none => none
            | _, _, _, _ => none
          | _ => none
        else
          match unescapeShort e with
          | some ch =>
            match parseJsonStringAux cs2 with
            | some (s, r) => some (ch :: s, r)
            | none => none
          | none => none
    else
      match parseJsonStringAux cs with
      | some (s, r) => some (c :: s, r)
      | none => none

/-- A JSON string literal, starting at its opening quote. -/
def parseJsonString (l : List Char) : Option (String × List Char) :=
  match l with
  | c :: cs =>
    if c = '"' then
      match parseJsonStringAux cs with
      | some (s, r) => some (⟨s⟩, r)
      | none => none
    else none
  | [] => none

/-- The members of a JSON object of strings, from the first member up to
and including the object's closing brace; `fuel` bounds the recursion
depth (one unit per member suffices). -/
def parseMembers : Nat → List Char → Option (List (String × String) × List Char)
  | 0, _ => none
  | fuel + 1, l =>
    match parseJsonString (skipWS l) with
    | none => none
    | some (k, r1) =>
      match skipWS r1 with
      | c :: r2 =>
        if c = ':' then
          match parseJsonString (skipWS r2) with
          | none => none
          | some (v, r3) =>
            match skipWS r3 with
            | c2 :: r4 =>
              if c2 = ',' then
                match parseMembers fuel r4 with
                | some (ms, r5) => some ((k, v) :: ms, r5)
                | none => none
              else if c2 = '\x7d' then some ([(k, v)], r4)
              else none
            | [] => none
        else none
      | [] => none

/-- Model of `json.load` (source lines 112–113), restricted to the
grammar `field_mapping.json` can hold — a JSON object whose values are
strings; `none` models a raised `JSONDecodeError`.  Duplicate keys
collapse with Python dict semantics. -/
def json_load_mapping (t : String) : Option (List (String × String)) :=
  match skipWS t.data with
  | c :: r =>
    if c = '\x7b' then
      match skipWS r with
      | c2 :: r2 =>
        if c2 = '\x7d' then if (skipWS r2).isEmpty then some [] else none
        else
          match parseMembers (t.data.length + 1) r with
          | some (ms, rest) =>
            if (skipWS rest).isEmpty then some (dictFromList ms) else none
          | none => none
      | [] => none
    else none
  | [] => none

/-- Python `answer.strip().lower() == 'y'` for the yes/no prompts. -/
def answeredYes (a : String) : Bool := pyLower (pyStrip a) == "y"

/-- The per-column prompting loop of `get_field_mapping` (source lines
139–147): one stripped user answer per header field, in order; a blank
answer skips the column, a non-blank answer outside `VALID_BIBTEX_FIELDS`
is rejected with a message (the column stays unmapped), and a valid
answer is inserted into the mapping dict. -/
def buildMapping : List String → List String → List (String × String) →
    List (String × String)
  | [], _, m => m
  | field :: fields, answers, m =>
    let a := pyStrip (answers.headD "")
    if ¬ a = "" ∧ isVocabField a then
      buildMapping fields answers.tail (dictInsert m field a)
    else buildMapping fields answers.tail m

/-- Source `get_field_mapping` (lines 96–155) over the injected
capabilities: `store` is the content of `field_mapping.json` when that
file exists, `reuse` the answer to the reuse prompt (asked only when the
file exists), `fields` the CSV header, `answers` the per-column prompt
answers.  An `Except.error` is an exception escaping the function — a
`json.load` parse failure, or the explicit `ValueError` raised when the
file has no headers.  The save prompt only affects the store file, never
the returned mapping, so it is not a parameter here. -/
def get_field_mapping (store : Option String) (reuse : String)
    (fields : List String) (answers : List String) :
    Except String (List (String × String)) :=
  match store with
  | some text =>
    if answeredYes reuse then
      match json_load_mapping text with
      | some m => .ok m
      | none => .error "json.decoder.JSONDecodeError"
    else if fields.isEmpty then .error "ValueError: CSV file does not contain headers."
    else .ok (buildMapping fields answers [])
  | none =>
    if fields.isEmpty then .error "ValueError: CSV file does not contain headers."
    else .ok (buildMapping fields answers [])

/-- Observable outcome of one run of the script past argument parsing:
exit status, whether the process died on an uncaught exception, the
content written to the output path (`none` = the output file was never
opened), and the validation diagnostic. -/
structure RunResult where
  exitCode : Nat
  crashed : Bool
  output : Option (List String)
  diag : ValidationOutcome
  deriving DecidableEq, Repr

/-- The `__main__` orchestration (source lines 195–210) after argument
parsing: validate the input, exiting with status 1 and no output file on
failure; then negotiate the mapping — an exception escaping
`get_field_mapping` kills the process (Python exits with status 1 on an
uncaught exception) before the output file is opened; then convert. -/
def runMain (file : Except String (List (List String)))
    (store : Option String) (reuse : String) (answers : List String) :
    RunResult :=
  match validate_csv file with
  | .ok =>
    match file with
    | .ok (headers :: rows) =>
      match get_field_mapping store reuse headers answers with
      | .error _ => ⟨1, true, none, .ok⟩
      | .ok m =>
        ⟨0, false, some (convert_csv_to_bibtex_with_mapping headers rows m), .ok⟩
    | _ => ⟨1, false, none, .ok⟩
  | outcome => ⟨1, false, none, outcome⟩

lemma pySplitChar_headD (sep : Char) (l : List Char) :
    (pySplitChar sep l).headD [] = beforeFirst sep l := by
  induction l with
  | nil => rfl
  | cons c cs ih =>
    by_cases h : c = sep
    · simp [pySplitChar, beforeFirst, h]
    · have step : (pySplitChar sep (c :: cs)).headD []
          = c :: (pySplitChar sep cs).headD [] := by
        simp only [pySplitChar, if_neg h]
        rfl
      rw [step, ih, beforeFirst, if_neg h]

lemma flatten_map_of_singleton {α : Type} (f : α → List α) (l : List α)
    (h : ∀ c ∈ l, f c = [c]) : (l.map f).flatten = l := by
  induction l with
  | nil => rfl
  | cons c cs ih =>
    simp only [List.map_cons, List.flatten_cons, h c (List.mem_cons_self c cs)]
    simp only [List.singleton_append, List.cons.injEq, true_and]
    exact ih fun x hx => h x (List.mem_cons_of_mem c hx)

/-- Claim C3: the key generator computes exactly the specification's formula:
lower-cased last whitespace token of the author field's first
comma-segment (falling back to `"unknown"`), with the year appended
verbatim; in particular `generate_bibtex_key "" "2020" = "unknown2020"`. -/
theorem generate_bibtex_key_spec :
    (∀ authors year, generate_bibtex_key authors year = spec_citation_key authors year)
      ∧ generate_bibtex_key "" "2020" = "unknown2020" := by
  constructor
  · intro authors year
    unfold generate_bibtex_key spec_citation_key
    rw [pySplitChar_headD]
  · decide

/-- Claim C4: capitalization masking is the order-preserving
character-by-character transform that replaces each upper-case `c` by
`'\x7b'`, `c`, `'\x7d'` and keeps every other character; a string with no
upper-case characters is returned unchanged, and
`"Deep Work"` maps to `"\x7bD\x7deep \x7bW\x7dork"`. -/
theorem mask_capitals_spec :
    (∀ v : String,
        (mask_capitals v).data
          = v.data.flatMap (fun c => if c.isUpper then ['\x7b', c, '\x7d'] else [c]))
      ∧ (∀ v : String, (∀ c ∈ v.data, c.isUpper = false) → mask_capitals v = v)
      ∧ mask_capitals "Deep Work" = "\x7bD\x7deep \x7bW\x7dork" := by
  refine ⟨fun v => ?_, fun v h => ?_, rfl⟩
  · simp [mask_capitals, List.flatMap]
  · cases v with
    | mk l =>
      show String.mk _ = String.mk l
      congr 1
      exact flatten_map_of_singleton _ l fun c hc => by simp [h c hc]

/-- Witness for C4: masking leaves the upper-case-free string `"deep"`
unchanged. -/
theorem mask_capitals_spec_witness : mask_capitals "deep" = "deep" :=
  mask_capitals_spec.2.1 "deep" (by decide)

lemma foldl_dictInsert_of_nodup {α : Type} (l : List (String × α)) :
    ∀ acc : List (String × α), (acc.map Prod.fst ++ l.map Prod.fst).Nodup →
      l.foldl (fun m kv => dictInsert m kv.1 kv.2) acc = acc ++ l := by
  induction l with
  | nil => intro acc _; simp
  | cons kv rest ih =>
    intro acc h
    have hk : kv.1 ∉ acc.map Prod.fst := by
      rw [List.nodup_append] at h
      intro hmem
      exact h.2.2 hmem (List.mem_cons_self _ _)
    have hins : dictInsert acc kv.1 kv.2 = acc ++ [kv] := by
      unfold dictInsert
      rw [if_neg hk]
    have hnd : ((acc ++ [kv]).map Prod.fst ++ rest.map Prod.fst).Nodup := by
      simpa [List.append_assoc] using h
    calc (kv :: rest).foldl (fun m kv2 => dictInsert m kv2.1 kv2.2) acc
        = rest.foldl (fun m kv2 => dictInsert m kv2.1 kv2.2) (acc ++ [kv]) := by
          rw [List.foldl_cons, hins]
      _ = (acc ++ [kv]) ++ rest := ih (acc ++ [kv]) hnd
      _ = acc ++ kv :: rest := by simp

lemma dictFromList_eq_self {α : Type} (l : List (String × α))
    (h : (l.map Prod.fst).Nodup) : dictFromList l = l := by
  simpa [dictFromList] using foldl_dictInsert_of_nodup l [] (by simpa using h)

lemma mkPyRow_wf (fn cells : List String) (hnd : fn.Nodup)
    (hlen : cells.length = fn.length) :
    mkPyRow fn cells = ⟨fn.zip (cells.map some), false⟩ := by
  unfold mkPyRow
  have h0 : fn.length - cells.length = 0 := by omega
  rw [h0]
  have hkeys : (fn.zip (cells.map some)).map Prod.fst = fn :=
    List.map_fst_zip fn (cells.map some) (by simp [hlen])
  have hpairs :
      dictFromList (fn.zip (cells.map some ++ List.replicate 0 none))
        = fn.zip (cells.map some) := by
    rw [List.replicate_zero, List.append_nil]
    exact dictFromList_eq_self _ (by rw [hkeys]; exact hnd)
  have hrest : decide (fn.length < cells.length) = false := by
    simp [hlen]
  rw [hpairs, hrest]

lemma assocLookup_zip_map_some (fn : List String) (cells : List String)
    (k : String) :
    assocLookup (fn.zip (cells.map some)) k
      = (assocLookup (fn.zip cells) k).map some := by
  induction fn generalizing cells with
  | nil => simp [assocLookup]
  | cons f fs ih =>
    cases cells with
    | nil => simp [assocLookup]
    | cons c cs =>
      have ih2 := ih cs
      simp only [List.zip] at ih2 ⊢
      by_cases h : f = k <;> simp [assocLookup, h, ih2]

lemma rowGetD_zip (fn cells : List String) (k : String) :
    rowGetD ⟨fn.zip (cells.map some), false⟩ k
      = some ((assocLookup (fn.zip cells) k).getD "") := by
  unfold rowGetD
  show (match assocLookup (fn.zip (cells.map some)) k with
        | some v => v | none => some "") = _
  rw [assocLookup_zip_map_some]
  cases assocLookup (fn.zip cells) k <;> rfl

lemma entryLine_wf (fn cells : List String) (k f : String) :
    entryLine ⟨fn.zip (cells.map some), false⟩ (k, f)
      = .ok (wfEntryLine (fn.zip cells) (k, f)) := by
  unfold entryLine wfEntryLine
  rw [show ((k, f).1) = k from rfl, rowGetD_zip]
  by_cases h : pyStrip ((assocLookup (fn.zip cells) k).getD "") = "" <;>
    simp [h]

lemma entryLines_wf (fn cells : List String)
    (m : List (String × String)) :
    entryLines ⟨fn.zip (cells.map some), false⟩ m
      = .ok (m.filterMap (wfEntryLine (fn.zip cells))) := by
  induction m with
  | nil => rfl
  | cons cf rest ih =>
    obtain ⟨k, f⟩ := cf
    simp only [entryLines, entryLine_wf fn cells k f, ih, List.filterMap_cons]
    cases h : wfEntryLine (fn.zip cells) (k, f) <;> simp [h]

lemma renderRow_wf (fn cells : List String) (m : List (String × String))
    (hnd : fn.Nodup) (hlen : cells.length = fn.length) :
    renderRow fn.length (mkPyRow fn cells) m = some (renderBlockWF fn cells m) := by
  rw [mkPyRow_wf fn cells hnd hlen]
  have hmal : rowMalformed fn.length ⟨fn.zip (cells.map some), false⟩ = false := by
    simp [rowMalformed, pyRowLen, List.length_zip, hlen]
  unfold renderRow
  rw [hmal, entryLines_wf]
  rfl

/-- Claim C2 (amended: the header names must additionally be pairwise
distinct): for a table whose data rows all have as many cells as the
header and a mapping whose values lie in the vocabulary, the conversion
emits exactly one block per data row, in input order, the i-th block
being the rendering of the i-th row. -/
theorem convert_row_count_preserved (fieldnames : List String)
    (rows : List (List String)) (field_mapping : List (String × String))
    (hnd : fieldnames.Nodup)
    (hlen : ∀ r ∈ rows, r.length = fieldnames.length)
    (hvoc : ∀ v ∈ field_mapping.map Prod.snd, isVocabField v = true) :
    convert_csv_to_bibtex_with_mapping fieldnames rows field_mapping
      = rows.map (fun cells => renderBlockWF fieldnames cells field_mapping)
    ∧ (convert_csv_to_bibtex_with_mapping fieldnames rows field_mapping).length
      = rows.length := by
  have main : ∀ rs : List (List String),
      (∀ r ∈ rs, r.length = fieldnames.length) →
      convert_csv_to_bibtex_with_mapping fieldnames rs field_mapping
        = rs.map (fun cells => renderBlockWF fieldnames cells field_mapping) := by
    intro rs hrs
    induction rs with
    | nil => rfl
    | cons r rest ih =>
      unfold convert_csv_to_bibtex_with_mapping at ih ⊢
      rw [List.filterMap_cons,
        renderRow_wf fieldnames r field_mapping hnd (hrs r (List.mem_cons_self r rest)),
        List.map_cons, ih fun x hx => hrs x (List.mem_cons_of_mem r hx)]
  have h1 := main rows hlen
  exact ⟨h1, by rw [h1, List.length_map]⟩

/-- Witness for C2 (amended), at the specification's concrete scenario. -/
theorem convert_row_count_preserved_witness :
    convert_csv_to_bibtex_with_mapping ["Authors", "Year"]
        [["Smith, John", "2021"]] [("Authors", "author"), ("Year", "year")]
      = [["Smith, John", "2021"]].map
          (fun cells => renderBlockWF ["Authors", "Year"] cells
            [("Authors", "author"), ("Year", "year")])
    ∧ (convert_csv_to_bibtex_with_mapping ["Authors", "Year"]
        [["Smith, John", "2021"]]
        [("Authors", "author"), ("Year", "year")]).length = 1 :=
  convert_row_count_preserved ["Authors", "Year"] [["Smith, John", "2021"]]
    [("Authors", "author"), ("Year", "year")] (by decide) (by decide) (by decide)

/-- Counterexample to C2 as stated: the table with header `a,a` and the
single two-cell data row `x,y` is well-formed in the claim's sense (the
row's cell count equals the header's), and the mapping sends `a` to the
vocabulary field `title`, yet the conversion emits zero blocks instead of
one — `DictReader` collapses the duplicate header names, so the row fails
the converter's `len(row) != header_length` test and is skipped. -/
theorem convert_dup_header_counterexample :
    convert_csv_to_bibtex_with_mapping ["a", "a"] [["x", "y"]] [("a", "title")] = []
    ∧ ¬ (convert_csv_to_bibtex_with_mapping ["a", "a"] [["x", "y"]]
          [("a", "title")]).length = [["x", "y"]].length := by
  exact ⟨by decide, by decide⟩

/-- Claim C1 (evaluation of the defect): on the specification's example
row the converter's block opens with the bare line `"@article\x7b"`; the
citation key that the Key Generator would produce (`"smith2021"`) does
not appear, because `generate_bibtex_key` is never called by
`convert_csv_to_bibtex_with_mapping`. -/
theorem article_block_has_no_key :
    generate_bibtex_key "Smith, John" "2021" = "smith2021"
    ∧ convert_csv_to_bibtex_with_mapping ["Authors", "Year"]
        [["Smith, John", "2021"]] [("Authors", "author"), ("Year", "year")]
      = ["@article\x7b\n  author = \x7bSmith, John\x7d,\n  year = \x7b2021\x7d,\n\x7d\n\n"]
    ∧ firstLineOf
        "@article\x7b\n  author = \x7bSmith, John\x7d,\n  year = \x7b2021\x7d,\n\x7d\n\n"
      = "@article\x7b"
    ∧ ¬ "@article\x7b"
        = "@article\x7b" ++ generate_bibtex_key "Smith, John" "2021" ++ "," := by
  exact ⟨by decide, by decide, by decide, by decide⟩

lemma mask_capitals_ne_empty (v : String) (h : ¬ v = "") :
    ¬ mask_capitals v = "" := by
  obtain ⟨l⟩ := v
  cases l with
  | nil => exact absurd rfl h
  | cons c cs =>
    intro hmask
    have hd := congrArg String.data hmask
    simp only [mask_capitals, List.map_cons, List.flatten_cons] at hd
    rcases List.append_eq_nil.mp hd with ⟨h1, _⟩
    by_cases hu : c.isUpper <;> simp [hu] at h1

lemma maskIf_ne_empty (f v : String) (h : ¬ v = "") : ¬ maskIf f v = "" := by
  unfold maskIf
  split
  · exact mask_capitals_ne_empty v h
  · exact h

lemma entryLine_some (r : PyRow) (cf : String × String) (l : String)
    (h : entryLine r cf = .ok (some l)) :
    ∃ raw, rowGetD r cf.1 = some raw ∧ ¬ pyStrip raw = ""
      ∧ l = "  " ++ cf.2 ++ " = \x7b" ++ maskIf cf.2 (pyStrip raw) ++ "\x7d," := by
  cases hr : rowGetD r cf.1 with
  | none => simp [entryLine, hr] at h
  | some raw =>
    simp only [entryLine, hr] at h
    by_cases hs : pyStrip raw = ""
    · rw [if_pos hs] at h
      simp at h
    · rw [if_neg hs] at h
      simp only [Except.ok.injEq, Option.some.injEq] at h
      exact ⟨raw, rfl, hs, h.symm⟩

lemma entryLines_ok_mem (r : PyRow) (m : List (String × String)) :
    ∀ ls : List String, entryLines r m = .ok ls →
      ∀ l ∈ ls, ∃ cf ∈ m, ∃ raw : String,
        rowGetD r cf.1 = some raw ∧ ¬ pyStrip raw = ""
        ∧ l = "  " ++ cf.2 ++ " = \x7b" ++ maskIf cf.2 (pyStrip raw) ++ "\x7d,"
        ∧ ¬ maskIf cf.2 (pyStrip raw) = "" := by
  induction m with
  | nil =>
    intro ls h l hl
    simp only [entryLines, Except.ok.injEq] at h
    rw [← h] at hl
    cases hl
  | cons cf rest ih =>
    intro ls h l hl
    cases hcf : entryLine r cf with
    | error e => simp [entryLines, hcf] at h
    | ok o =>
      cases o with
      | none =>
        simp only [entryLines, hcf] at h
        obtain ⟨cf2, hm, raw, hrest⟩ := ih ls h l hl
        exact ⟨cf2, List.mem_cons_of_mem cf hm, raw, hrest⟩
      | some l0 =>
        simp only [entryLines, hcf] at h
        cases hrest : entryLines r rest with
        | error e => rw [hrest] at h; simp at h
        | ok ls0 =>
          rw [hrest] at h
          simp only [Except.ok.injEq] at h
          rw [← h] at hl
          cases hl with
          | head =>
            obtain ⟨raw, hget, hne, hline⟩ := entryLine_some r cf _ hcf
            exact ⟨cf, List.mem_cons_self cf rest, raw, hget, hne, hline,
              maskIf_ne_empty cf.2 (pyStrip raw) hne⟩
          | tail _ htail =>
            obtain ⟨cf2, hm, raw, hr2⟩ := ih ls0 hrest l htail
            exact ⟨cf2, List.mem_cons_of_mem cf hm, raw, hr2⟩

/-- Claim C5: a mapped column that is absent from the row, or whose cell
is empty after stripping, contributes no line and raises no error; and
every line a block does contain comes from a mapping entry with a
non-empty stripped value, so its braces are never empty. -/
theorem empty_or_missing_fields_omitted :
    (∀ (r : PyRow) (c f : String),
        assocLookup r.pairs c = none → entryLine r (c, f) = .ok none)
    ∧ (∀ (r : PyRow) (c f raw : String),
        rowGetD r c = some raw → pyStrip raw = "" → entryLine r (c, f) = .ok none)
    ∧ (∀ (r : PyRow) (m : List (String × String)) (ls : List String),
        entryLines r m = .ok ls → ∀ l ∈ ls, ∃ cf ∈ m, ∃ raw : String,
          rowGetD r cf.1 = some raw ∧ ¬ pyStrip raw = ""
          ∧ l = "  " ++ cf.2 ++ " = \x7b" ++ maskIf cf.2 (pyStrip raw) ++ "\x7d,"
          ∧ ¬ maskIf cf.2 (pyStrip raw) = "") := by
  refine ⟨?_, ?_, ?_⟩
  · intro r c f h
    have hget : rowGetD r c = some "" := by
      unfold rowGetD
      rw [h]
    simp [entryLine, hget, pyStrip]
  · intro r c f raw h1 h2
    simp [entryLine, h1, h2]
  · exact fun r m ls h => entryLines_ok_mem r m ls h

/-- Witness for C5: a column missing from the row, and a column whose
cell is blank, each contribute no line and no failure. -/
theorem empty_or_missing_fields_omitted_witness :
    entryLine (mkPyRow ["A"] ["x"]) ("B", "note") = .ok none
    ∧ entryLine (mkPyRow ["A"] ["  "]) ("A", "note") = .ok none :=
  ⟨empty_or_missing_fields_omitted.1 (mkPyRow ["A"] ["x"]) "B" "note" (by decide),
   empty_or_missing_fields_omitted.2.1 (mkPyRow ["A"] ["  "]) "A" "note" "  "
     (by decide) (by decide)⟩

lemma scanRows_finds (hl : Nat) :
    ∀ (data : List (List String)) (n : Nat),
      (∃ r ∈ data, ¬ r.length = hl) →
      ∃ j, j < data.length ∧ ¬ (data.getD j []).length = hl
        ∧ scanRows hl data n = .rowMismatch (n + j) (data.getD j []) := by
  intro data
  induction data with
  | nil =>
    rintro n ⟨r, hr, _⟩
    cases hr
  | cons row rest ih =>
    rintro n ⟨r, hr, hrlen⟩
    by_cases h : row.length = hl
    · have hrest : ∃ r2 ∈ rest, ¬ r2.length = hl := by
        rcases List.mem_cons.mp hr with rfl | hmem
        · exact absurd h hrlen
        · exact ⟨r, hmem, hrlen⟩
      obtain ⟨j, hj, hlen2, hscan⟩ := ih (n + 1) hrest
      refine ⟨j + 1, Nat.succ_lt_succ hj, ?_, ?_⟩
      · simpa [List.getD] using hlen2
      · have harith : n + (j + 1) = (n + 1) + j := by omega
        simp only [scanRows, h, ne_eq, not_true_eq_false, if_false, harith]
        simpa [List.getD] using hscan
    · exact ⟨0, Nat.succ_pos _, by simpa [List.getD] using h,
        by simp [scanRows, h]⟩

/-- Claim C6: a table with a header and at least one data row whose cell
count differs from the header's is rejected during the pre-validation
pass: the first offending row is reported with its row number (counting
the header as line 1) and raw content, the run exits with status 1 and no
uncaught exception, and the output file is never opened. -/
theorem validate_rejects_malformed (hdr : List String)
    (data : List (List String)) (store : Option String) (reuse : String)
    (answers : List String) (h1 : ¬ hdr = [])
    (h2 : ∃ r ∈ data, ¬ r.length = hdr.length) :
    ∃ j, j < data.length ∧ ¬ (data.getD j []).length = hdr.length
      ∧ validate_csv (.ok (hdr :: data)) = .rowMismatch (j + 2) (data.getD j [])
      ∧ runMain (.ok (hdr :: data)) store reuse answers
          = ⟨1, false, none, .rowMismatch (j + 2) (data.getD j [])⟩ := by
  obtain ⟨j, hj, hlen, hscan⟩ := scanRows_finds hdr.length data 2 h2
  have hval : validate_csv (.ok (hdr :: data))
      = .rowMismatch (j + 2) (data.getD j []) := by
    have hne : hdr.isEmpty = false := by
      cases hdr with
      | nil => exact absurd rfl h1
      | cons a l => rfl
    rw [show (2 + j) = (j + 2) by omega] at hscan
    simp [validate_csv, hne, hscan]
  refine ⟨j, hj, hlen, hval, ?_⟩
  simp [runMain, hval]

/-- Witness for C6: header `a,b` with rows `x,y` and the short row `z` —
validation reports row 3 with content `z`, and the run aborts with no
output. -/
theorem validate_rejects_malformed_witness :
    ∃ j, j < ([["x", "y"], ["z"]] : List (List String)).length
      ∧ ¬ (([["x", "y"], ["z"]] : List (List String)).getD j []).length
          = (["a", "b"] : List String).length
      ∧ validate_csv (.ok [["a", "b"], ["x", "y"], ["z"]])
          = .rowMismatch (j + 2) (([["x", "y"], ["z"]] : List (List String)).getD j [])
      ∧ runMain (.ok [["a", "b"], ["x", "y"], ["z"]]) none "" []
          = ⟨1, false, none,
              .rowMismatch (j + 2) (([["x", "y"], ["z"]] : List (List String)).getD j [])⟩ :=
  validate_rejects_malformed ["a", "b"] [["x", "y"], ["z"]] none "" []
    (by decide) ⟨["z"], by decide, by decide⟩

/-- Claim C10: an input that cannot be opened or read is caught inside
`validate_csv` (its `except Exception` clause), reported as a diagnostic,
and the run exits with status 1, no uncaught exception, and the output
file never opened. -/
theorem unreadable_input_aborts (e : String) (store : Option String)
    (reuse : String) (answers : List String) :
    validate_csv (.error e) = .ioError e
    ∧ runMain (.error e) store reuse answers = ⟨1, false, none, .ioError e⟩ :=
  ⟨rfl, rfl⟩

/-- Counterexample to C9 as stated: with a stored mapping file whose
content `"nonsense"` fails to parse and a user who answers `y` to the
reuse prompt, the run on a perfectly valid table dies on the uncaught
`json.load` exception — the load failure is not treated as "no mapping
available", and the run does not continue. -/
theorem store_failure_counterexample :
    json_load_mapping "nonsense" = none
    ∧ get_field_mapping (some "nonsense") "y" ["A"] []
        = .error "json.decoder.JSONDecodeError"
    ∧ runMain (.ok [["A"], ["x"]]) (some "nonsense") "y" []
        = ⟨1, true, none, .ok⟩ :=
  ⟨rfl, rfl, rfl⟩

/-- Claim C9 (amended): a failure while loading the stored mapping is not
recovered — when the stored text fails to parse and the user opts to
reuse it, the exception escapes `get_field_mapping` and aborts the run
before any conversion, with the output file never opened. -/
theorem load_failure_aborts (hdr : List String) (data : List (List String))
    (t : String) (reuse : String) (answers : List String)
    (hload : json_load_mapping t = none)
    (hy : answeredYes reuse = true)
    (hval : validate_csv (.ok (hdr :: data)) = .ok) :
    get_field_mapping (some t) reuse hdr answers
      = .error "json.decoder.JSONDecodeError"
    ∧ runMain (.ok (hdr :: data)) (some t) reuse answers
      = ⟨1, true, none, .ok⟩ := by
  have h1 : get_field_mapping (some t) reuse hdr answers
      = .error "json.decoder.JSONDecodeError" := by
    simp [get_field_mapping, hy, hload]
  refine ⟨h1, ?_⟩
  simp [runMain, hval, h1]

/-- Witness for C9 (amended): store content `"x"`, reuse answer `y`, a
valid one-column table. -/
theorem load_failure_aborts_witness :
    get_field_mapping (some "x") "y" ["A"] []
      = .error "json.decoder.JSONDecodeError"
    ∧ runMain (.ok [["A"], ["x"]]) (some "x") "y" [] = ⟨1, true, none, .ok⟩ :=
  load_failure_aborts ["A"] [["x"]] "x" "y" [] rfl rfl rfl

lemma string_mk_data (s : String) : String.mk s.data = s := by
  cases s
  rfl

lemma hexVal_hexDigitChar (n : Nat) (h : n < 16) :
    hexVal (hexDigitChar n) = some n := by
  interval_cases n <;> decide

lemma parse_esc (c : Char) (rest : List Char) :
    parseJsonStringAux (escChar c ++ rest)
      = (parseJsonStringAux rest).map (fun p => (c :: p.1, p.2)) := by
  unfold escChar
  split_ifs with h1 h2 h3 h4 h5 h6 h7 h8
  · subst h1
    rw [parseJsonStringAux.eq_def]
    cases hr : parseJsonStringAux rest <;> simp [unescapeShort, hr]
  · subst h2
    rw [parseJsonStringAux.eq_def]
    cases hr : parseJsonStringAux rest <;> simp [unescapeShort, hr]
  · subst h3
    rw [parseJsonStringAux.eq_def]
    cases hr : parseJsonStringAux rest <;> simp [unescapeShort, hr]
  · subst h4
    rw [parseJsonStringAux.eq_def]
    cases hr : parseJsonStringAux rest <;> simp [unescapeShort, hr]
  · subst h5
    rw [parseJsonStringAux.eq_def]
    cases hr : parseJsonStringAux rest <;> simp [unescapeShort, hr]
  · subst h6
    rw [parseJsonStringAux.eq_def]
    cases hr : parseJsonStringAux rest <;> simp [unescapeShort, hr]
  · subst h7
    rw [parseJsonStringAux.eq_def]
    cases hr : parseJsonStringAux rest <;> simp [unescapeShort, hr]
  · have hdiv : c.toNat / 16 < 16 := by omega
    have hmod : c.toNat % 16 < 16 := by omega
    have harith : c.toNat / 16 * 16 + c.toNat % 16 = c.toNat := by omega
    rw [parseJsonStringAux.eq_def]
    simp only [List.cons_append, List.nil_append,
      hexVal_hexDigitChar _ hdiv, hexVal_hexDigitChar _ hmod]
    cases hr : parseJsonStringAux rest <;> simp [hr, hexVal, harith]
  · rw [parseJsonStringAux.eq_def]
    simp only [List.cons_append, List.nil_append, if_neg h2, if_neg h1]
    cases hr : parseJsonStringAux rest <;> simp [hr]

lemma parse_string_encode (l : List Char) :
    ∀ rest : List Char,
      parseJsonStringAux (l.flatMap escChar ++ '"' :: rest) = some (l, rest) := by
  induction l with
  | nil =>
    intro rest
    rw [parseJsonStringAux.eq_def]
    simp
  | cons c cs ih =>
    intro rest
    rw [List.flatMap_cons, List.append_assoc, parse_esc, ih]
    rfl

lemma skipWS_append_ws (a : List Char) (l : List Char)
    (h : ∀ c ∈ a, isJsonWS c = true) : skipWS (a ++ l) = skipWS l := by
  induction a with
  | nil => rfl
  | cons c cs ih =>
    rw [List.cons_append, skipWS, if_pos (h c (List.mem_cons_self c cs))]
    exact ih fun x hx => h x (List.mem_cons_of_mem c hx)

lemma skipWS_not_ws (c : Char) (l : List Char) (h : isJsonWS c = false) :
    skipWS (c :: l) = c :: l := by
  rw [skipWS, if_neg (by simp [h])]

lemma skipWS_encode (s : String) (r : List Char) :
    skipWS (encodeJsonString s ++ r) = encodeJsonString s ++ r := by
  rw [encodeJsonString, List.cons_append]
  exact skipWS_not_ws _ _ (by decide)

lemma parseJsonString_encode (s : String) (rest : List Char) :
    parseJsonString (encodeJsonString s ++ rest) = some (s, rest) := by
  rw [encodeJsonString, List.cons_append, parseJsonString,
    List.append_assoc, List.singleton_append, parse_string_encode]
  simp [string_mk_data]

lemma parse_members_encode :
    ∀ (ms : List (String × String)) (fuel : Nat) (pre rest : List Char),
      (∀ c ∈ pre, isJsonWS c = true) → ¬ ms = [] → ms.length ≤ fuel →
      parseMembers fuel
          (pre ++ joinMembers (ms.map encodeMember) ++ '\n' :: '\x7d' :: rest)
        = some (ms, rest) := by
  intro ms
  induction ms with
  | nil => intro fuel pre rest _ hne _; exact absurd rfl hne
  | cons kv tail ih =>
    intro fuel pre rest hpre _ hfuel
    cases fuel with
    | zero => simp at hfuel
    | succ f =>
      obtain ⟨k, v⟩ := kv
      have hws : ∀ c ∈ pre ++ [' ', ' ', ' ', ' '], isJsonWS c = true := by
        intro c hc
        rcases List.mem_append.mp hc with h | h
        · exact hpre c h
        · fin_cases h <;> decide
      cases tail with
      | nil =>
        have e1 : pre ++ joinMembers ([((k : String), (v : String))].map encodeMember)
              ++ '\n' :: '\x7d' :: rest
            = (pre ++ [' ', ' ', ' ', ' '])
              ++ (encodeJsonString k
                  ++ ':' :: ' ' :: (encodeJsonString v ++ ('\n' :: '\x7d' :: rest))) := by
          simp [joinMembers, encodeMember, List.append_assoc]
        have hsk1 : skipWS ((pre ++ [' ', ' ', ' ', ' '])
              ++ (encodeJsonString k
                  ++ ':' :: ' ' :: (encodeJsonString v ++ ('\n' :: '\x7d' :: rest))))
            = encodeJsonString k
              ++ ':' :: ' ' :: (encodeJsonString v ++ ('\n' :: '\x7d' :: rest)) := by
          rw [skipWS_append_ws _ _ hws, skipWS_encode]
        have hsk2 : skipWS (':' :: ' ' :: (encodeJsonString v ++ ('\n' :: '\x7d' :: rest)))
            = ':' :: ' ' :: (encodeJsonString v ++ ('\n' :: '\x7d' :: rest)) :=
          skipWS_not_ws _ _ (by decide)
        have hsk3 : skipWS (' ' :: (encodeJsonString v ++ ('\n' :: '\x7d' :: rest)))
            = encodeJsonString v ++ ('\n' :: '\x7d' :: rest) := by
          rw [skipWS, if_pos (by decide), skipWS_encode]
        have hsk4 : skipWS ('\n' :: '\x7d' :: rest) = '\x7d' :: rest := by
          rw [skipWS, if_pos (by decide), skipWS_not_ws _ _ (by decide)]
        rw [e1, parseMembers]
        simp only [hsk1, parseJsonString_encode, hsk2, hsk3, hsk4]
        simp
      | cons kv2 tail2 =>
        have e1 : pre ++ joinMembers ((((k : String), (v : String)) :: kv2 :: tail2).map encodeMember)
              ++ '\n' :: '\x7d' :: rest
            = (pre ++ [' ', ' ', ' ', ' '])
              ++ (encodeJsonString k
                  ++ ':' :: ' ' :: (encodeJsonString v
                    ++ (',' :: '\n' :: (joinMembers ((kv2 :: tail2).map encodeMember)
                        ++ '\n' :: '\x7d' :: rest)))) := by
          simp [joinMembers, encodeMember, List.append_assoc]
        have hsk1 : skipWS ((pre ++ [' ', ' ', ' ', ' '])
              ++ (encodeJsonString k
                  ++ ':' :: ' ' :: (encodeJsonString v
                    ++ (',' :: '\n' :: (joinMembers ((kv2 :: tail2).map encodeMember)
                        ++ '\n' :: '\x7d' :: rest)))))
            = encodeJsonString k
              ++ ':' :: ' ' :: (encodeJsonString v
                ++ (',' :: '\n' :: (joinMembers ((kv2 :: tail2).map encodeMember)
                    ++ '\n' :: '\x7d' :: rest))) := by
          rw [skipWS_append_ws _ _ hws, skipWS_encode]
        have hsk2 : skipWS (':' :: ' ' :: (encodeJsonString v
              ++ (',' :: '\n' :: (joinMembers ((kv2 :: tail2).map encodeMember)
                  ++ '\n' :: '\x7d' :: rest))))
            = ':' :: ' ' :: (encodeJsonString v
              ++ (',' :: '\n' :: (joinMembers ((kv2 :: tail2).map encodeMember)
                  ++ '\n' :: '\x7d' :: rest))) :=
          skipWS_not_ws _ _ (by decide)
        have hsk3 : skipWS (' ' :: (encodeJsonString v
              ++ (',' :: '\n' :: (joinMembers ((kv2 :: tail2).map encodeMember)
                  ++ '\n' :: '\x7d' :: rest))))
            = encodeJsonString v
              ++ (',' :: '\n' :: (joinMembers ((kv2 :: tail2).map encodeMember)
                  ++ '\n' :: '\x7d' :: rest)) := by
          rw [skipWS, if_pos (by decide), skipWS_encode]
        have hsk4 : skipWS (',' :: '\n' :: (joinMembers ((kv2 :: tail2).map encodeMember)
              ++ '\n' :: '\x7d' :: rest))
            = ',' :: '\n' :: (joinMembers ((kv2 :: tail2).map encodeMember)
              ++ '\n' :: '\x7d' :: rest) :=
          skipWS_not_ws _ _ (by decide)
        have hih : parseMembers f ('\n' :: (joinMembers ((kv2 :: tail2).map encodeMember)
              ++ '\n' :: '\x7d' :: rest))
            = some (kv2 :: tail2, rest) := by
          have := ih f ['\n'] rest (by intro c hc; fin_cases hc <;> decide)
            (by simp) (by simp at hfuel ⊢; omega)
          simpa using this
        rw [e1, parseMembers]
        simp only [hsk1, parseJsonString_encode, hsk2, hsk3, hsk4, hih]
        simp

lemma joinMembers_cons (x : List Char) (l : List (List Char)) :
    ∃ S, joinMembers (x :: l) = x ++ S := by
  cases l with
  | nil => exact ⟨[], (List.append_nil x).symm⟩
  | cons y l2 => exact ⟨',' :: '\n' :: joinMembers (y :: l2), rfl⟩

lemma joinMembers_length_ge (ms : List (String × String)) :
    ms.length ≤ (joinMembers (ms.map encodeMember)).length := by
  induction ms with
  | nil => simp [joinMembers]
  | cons kv tail ih =>
    cases tail with
    | nil =>
      simp [joinMembers, encodeMember, encodeJsonString]
    | cons kv2 t2 =>
      simp only [List.map_cons, joinMembers, List.length_append, List.length_cons]
      simp only [List.map_cons, joinMembers, List.length_cons] at ih
      omega

lemma skipWS_member_quote (k v : String) (ms : List (String × String))
    (t2 : List Char) :
    ∃ z, skipWS ('\n' :: (joinMembers (((k, v) :: ms).map encodeMember) ++ t2))
      = '"' :: z := by
  obtain ⟨S, hS⟩ := joinMembers_cons (encodeMember (k, v)) (ms.map encodeMember)
  rw [List.map_cons, hS]
  refine ⟨(k.data.flatMap escChar ++ ['"'])
    ++ ([':', ' '] ++ encodeJsonString v) ++ (S ++ t2), ?_⟩
  have hshape : '\n' :: ((encodeMember (k, v) ++ S) ++ t2)
      = ('\n' :: [' ', ' ', ' ', ' '])
        ++ ('"' :: ((k.data.flatMap escChar ++ ['"'])
            ++ ([':', ' '] ++ encodeJsonString v) ++ (S ++ t2))) := by
    simp [encodeMember, encodeJsonString, List.append_assoc]
  rw [hshape, skipWS_append_ws _ _ (by intro c hc; fin_cases hc <;> decide),
    skipWS_not_ws _ _ (by decide)]

lemma dump_load_id (m : List (String × String))
    (hnd : (m.map Prod.fst).Nodup) :
    json_load_mapping (json_dump_mapping m) = some m := by
  cases m with
  | nil => rfl
  | cons kv tail =>
    obtain ⟨k, v⟩ := kv
    have hdata : (json_dump_mapping ((k, v) :: tail)).data
        = '\x7b' :: '\n' :: (joinMembers (((k, v) :: tail).map encodeMember)
            ++ ['\n', '\x7d']) := by
      rw [json_dump_mapping.eq_def]
      simp
    have hsk0 : skipWS ((json_dump_mapping ((k, v) :: tail)).data)
        = '\x7b' :: ('\n' :: (joinMembers (((k, v) :: tail).map encodeMember)
            ++ ['\n', '\x7d'])) := by
      rw [hdata]
      exact skipWS_not_ws _ _ (by decide)
    obtain ⟨z, hz⟩ := skipWS_member_quote k v tail ['\n', '\x7d']
    have hfuel : ((k, v) :: tail).length
        ≤ (json_dump_mapping ((k, v) :: tail)).data.length + 1 := by
      have hj := joinMembers_length_ge ((k, v) :: tail)
      rw [hdata]
      simp only [List.length_cons, List.length_append] at hj ⊢
      omega
    have hpm : parseMembers ((json_dump_mapping ((k, v) :: tail)).data.length + 1)
        ('\n' :: (joinMembers (((k, v) :: tail).map encodeMember) ++ ['\n', '\x7d']))
        = some ((k, v) :: tail, []) := by
      have h := parse_members_encode ((k, v) :: tail)
        ((json_dump_mapping ((k, v) :: tail)).data.length + 1) ['\n'] []
        (by intro c hc; fin_cases hc <;> decide) (by simp) hfuel
      simpa using h
    simp only [json_load_mapping, hsk0, hz, hpm]
    simp [dictFromList_eq_self _ hnd, skipWS]

/-- Claim C7: saving a Mapping (writing `json.dump`'s text to the store
file) and loading it back (`json.load` of that text) returns a Mapping
equal to the original, for any dict-shaped Mapping whose values are drawn
from the vocabulary. -/
theorem mapping_store_roundtrip (m : List (String × String))
    (hnd : (m.map Prod.fst).Nodup)
    (hvoc : ∀ v ∈ m.map Prod.snd, isVocabField v = true) :
    json_load_mapping (json_dump_mapping m) = some m :=
  dump_load_id m hnd

/-- Witness for C7: round-trip of a concrete two-entry mapping. -/
theorem mapping_store_roundtrip_witness :
    json_load_mapping (json_dump_mapping [("Authors", "author"), ("Year", "year")])
      = some [("Authors", "author"), ("Year", "year")] :=
  mapping_store_roundtrip [("Authors", "author"), ("Year", "year")]
    (by decide) (by decide)

lemma dictInsert_values {α : Type} (m : List (String × α)) (k : String)
    (x : α) (v : α) (hv : v ∈ (dictInsert m k x).map Prod.snd) :
    v ∈ m.map Prod.snd ∨ v = x := by
  unfold dictInsert at hv
  split at hv
  · rw [List.map_map] at hv
    obtain ⟨kv, hkv, hval⟩ := List.mem_map.mp hv
    by_cases h : kv.1 = k
    · right
      simp [Function.comp, h] at hval
      exact hval.symm
    · left
      simp only [Function.comp, h, if_false] at hval
      exact hval ▸ List.mem_map_of_mem Prod.snd hkv
  · rw [List.map_append] at hv
    rcases List.mem_append.mp hv with h | h
    · exact Or.inl h
    · right
      simpa using h

lemma buildMapping_values :
    ∀ (fields answers : List String) (m : List (String × String)),
      (∀ v ∈ m.map Prod.snd, isVocabField v = true) →
      ∀ v ∈ (buildMapping fields answers m).map Prod.snd, isVocabField v = true := by
  intro fields
  induction fields with
  | nil =>
    intro answers m hm v hv
    exact hm v hv
  | cons field rest ih =>
    intro answers m hm v hv
    rw [buildMapping] at hv
    by_cases hc : ¬ pyStrip (answers.headD "") = ""
        ∧ isVocabField (pyStrip (answers.headD "")) = true
    · rw [if_pos hc] at hv
      refine ih answers.tail _ ?_ v hv
      intro w hw
      rcases dictInsert_values m field (pyStrip (answers.headD "")) w hw with h | h
      · exact hm w h
      · rw [h]
        exact hc.2
    · rw [if_neg (by simpa using hc)] at hv
      exact ih answers.tail m hm v hv

/-- Claim C8: every Mapping a conversion run can use has all its values
inside `VALID_BIBTEX_FIELDS` — whether it was built interactively (the
prompt loop rejects answers outside the vocabulary) or loaded from the
persisted store, provided the store holds what this program persists
(the dump of a vocabulary-valid dict); consequently every line of every
rendered block names a vocabulary field. -/
theorem mapping_values_in_vocabulary
    (store : Option String) (reuse : String) (fields answers : List String)
    (hstore : ∀ t, store = some t → ∃ m0 : List (String × String),
        (m0.map Prod.fst).Nodup
        ∧ (∀ v ∈ m0.map Prod.snd, isVocabField v = true)
        ∧ t = json_dump_mapping m0) :
    ∀ m, get_field_mapping store reuse fields answers = .ok m →
      (∀ v ∈ m.map Prod.snd, isVocabField v = true)
      ∧ ∀ (r : PyRow) (ls : List String),
          entryLines r m = .ok ls →
          ∀ l ∈ ls, ∃ f w, isVocabField f = true
            ∧ l = "  " ++ f ++ " = \x7b" ++ w ++ "\x7d," := by
  intro m hm
  have hvals : ∀ v ∈ m.map Prod.snd, isVocabField v = true := by
    cases store with
    | none =>
      cases hf : fields.isEmpty with
      | true => simp [get_field_mapping, hf] at hm
      | false =>
        simp [get_field_mapping, hf] at hm
        subst hm
        exact buildMapping_values fields answers [] (by simp)
    | some t =>
      cases hy : answeredYes reuse with
      | true =>
        obtain ⟨m0, hnd0, hvoc0, ht⟩ := hstore t rfl
        subst ht
        simp [get_field_mapping, hy, dump_load_id m0 hnd0] at hm
        subst hm
        exact hvoc0
      | false =>
        cases hf : fields.isEmpty with
        | true => simp [get_field_mapping, hy, hf] at hm
        | false =>
          simp [get_field_mapping, hy, hf] at hm
          subst hm
          exact buildMapping_values fields answers [] (by simp)
  refine ⟨hvals, ?_⟩
  intro r ls hls l hl
  obtain ⟨cf, hcf, raw, _, _, hline, _⟩ := entryLines_ok_mem r m ls hls l hl
  exact ⟨cf.2, maskIf cf.2 (pyStrip raw),
    hvals cf.2 (List.mem_map_of_mem Prod.snd hcf), hline⟩

/-- Witness for C8: with no stored mapping, header `A`, and the single
answer `title`, the negotiated mapping's value is in the vocabulary. -/
theorem mapping_values_in_vocabulary_witness : isVocabField "title" = true :=
  (mapping_values_in_vocabulary none "" ["A"] ["title"]
      (fun t h => Option.noConfusion h) [("A", "title")] rfl).1
    "title" (by decide)
